import Mathlib

/-!
Verification of the queuectl job-queue engine (src/queuectl.py) against its
specification.

The SQLite jobs table is modelled as a `List Job` in rowid (insertion) order.
ISO-8601 UTC timestamp strings compare lexicographically consistently with
chronological order, so every timestamp column is modelled as an `Int` with the
usual order. SQL `NULL` columns are modelled as `Option`. Each operation of the
engine runs inside its own exclusive write transaction (`BEGIN IMMEDIATE`),
which serializes all writers, so concurrent executions are modelled as
sequences of atomic operations applied to the table.
-/

namespace Queuectl

/-- The CHECK constraint of the `state` column of the `jobs` table:
`state IN ('pending','processing','completed','failed','dead')`. -/
inductive JState where
  | pending
  | processing
  | completed
  | failed
  | dead
deriving DecidableEq, Repr

/-- One row of the `jobs` table (schema in `ensure_db`, lines 38-57). -/
structure Job where
  id : String
  command : String
  state : JState
  attempts : Int
  max_retries : Int
  created_at : Int
  updated_at : Int
  last_error : Option String
  next_run_at : Option Int
  locked_by : Option String
  locked_at : Option Int
  priority : Int
  return_code : Option Int
  stdout : Option String
  stderr : Option String
  duration_ms : Option Int
deriving DecidableEq, Repr

/-- The test `state IN ('pending','failed')` — the claimable-state test used both in the
SELECT and in the guarded UPDATE of `acquire_job` (lines 176-192). -/
def claimable (j : Job) : Bool :=
  match j.state with
  | .pending => true
  | .failed => true
  | _ => false

/-- The full WHERE clause of the SELECT in `acquire_job` (lines 176-182):
`state IN ('pending','failed') AND (next_run_at IS NULL OR next_run_at <= now)`. -/
def eligible (now : Int) (j : Job) : Bool :=
  claimable j &&
    (match j.next_run_at with
     | none => true
     | some t => decide (t ≤ now))

/-- Here `better a b = true` iff row `b` strictly precedes row `a` under the claim
order `ORDER BY priority DESC, created_at` of `acquire_job` (line 180). -/
def better (a b : Job) : Bool :=
  decide (a.priority < b.priority) ||
    (decide (a.priority = b.priority) && decide (b.created_at < a.created_at))

/-- Scan of the remaining rows keeping the best row so far under the claim
order, restricted to eligible rows; models the `ORDER BY ... LIMIT 1`. -/
def selectFrom (now : Int) (best : Job) : List Job → Job
  | [] => best
  | j :: rest =>
    if eligible now j && better best j then selectFrom now j rest
    else selectFrom now best rest

/-- The SELECT of `acquire_job` (lines 176-182): the first row under
`ORDER BY priority DESC, created_at` among eligible rows, if any. -/
def selectJob (now : Int) : List Job → Option Job
  | [] => none
  | j :: rest =>
    if eligible now j then some (selectFrom now j rest)
    else selectJob now rest

/-- The SET clause of the claiming UPDATE of `acquire_job` (lines 188-192):
`state='processing', locked_by=?, locked_at=?, updated_at=?`. -/
def claimUpdate (now : Int) (worker_id : String) (j : Job) : Job :=
  { j with
    state := .processing
    locked_by := some worker_id
    locked_at := some now
    updated_at := now }

/-- Effect on the table of the claiming UPDATE of `acquire_job`
(lines 188-192), guarded by `id=? AND state IN ('pending','failed')`. -/
def claimedTable (now : Int) (worker_id : String) (sel_id : String)
    (jobs : List Job) : List Job :=
  jobs.map (fun k =>
    if decide (k.id = sel_id) && claimable k then claimUpdate now worker_id k
    else k)

/-- Function `acquire_job` (lines 169-201). Select one eligible job; issue the UPDATE
guarded by `id=? AND state IN ('pending','failed')`; if its rowcount is not 1,
roll back and return no job; otherwise re-read the row by id and return it
together with the committed table. -/
def acquire_job (now : Int) (worker_id : String) (jobs : List Job) :
    Option Job × List Job :=
  match selectJob now jobs with
  | none => (none, jobs)
  | some sel =>
    if jobs.countP (fun k => decide (k.id = sel.id) && claimable k) = 1 then
      ((claimedTable now worker_id sel.id jobs).find?
          (fun k => decide (k.id = sel.id)),
       claimedTable now worker_id sel.id jobs)
    else
      (none, jobs)

/-- A sequence of `claim` calls against the same store, serialized by the
store's exclusive write transaction: returns the claimed jobs in order and the
final table. -/
def claimSeq : List (Int × String) → List Job → List Job × List Job
  | [], jobs => ([], jobs)
  | (t, w) :: rest, jobs =>
    let step := acquire_job t w jobs
    let next := claimSeq rest step.2
    (match step.1 with
     | some j => j :: next.1
     | none => next.1,
     next.2)

/-- Function `compute_backoff` (lines 203-209) called with an already-parsed integer
base, as `run_job` does: `int(base) ** int(max(attempts, 0))`. -/
def compute_backoff (base attempts : Int) : Int :=
  base ^ (max attempts 0).toNat

/-- The value of an ASCII digit character, none otherwise. -/
def digitVal (c : Char) : Option Nat :=
  if 48 ≤ c.toNat ∧ c.toNat ≤ 57 then some (c.toNat - 48) else none

/-- Accumulate decimal digits; none on the first non-digit character. -/
def digitsAcc : List Char → Nat → Option Nat
  | [], acc => some acc
  | c :: cs, acc =>
    match digitVal c with
    | none => none
    | some d => digitsAcc cs (acc * 10 + d)

/-- A non-empty all-digit character list as a number, none otherwise. -/
def digitsToNat? : List Char → Option Nat
  | [] => none
  | c :: cs =>
    match digitVal c with
    | none => none
    | some d => digitsAcc cs d

/-- Python's `int(s)` applied to a config string: an optional sign followed
by one or more decimal digits gives an integer; anything else (`none`) models
the `ValueError` raised on a non-numeric value. (Python additionally strips
surrounding whitespace and allows underscore separators; config values here
carry neither.) -/
def pyIntOfString (s : String) : Option Int :=
  match s.data with
  | [] => none
  | c :: cs =>
    if c = '-' then (digitsToNat? cs).map (fun n => -(n : Int))
    else if c = '+' then (digitsToNat? cs).map (fun n => (n : Int))
    else (digitsToNat? (c :: cs)).map (fun n => (n : Int))

/-- Line 216 of `run_job`: `backoff_base = int(get_config(conn, "backoff_base"))`,
evaluated on every job run before `compute_backoff` is ever called; `none`
models the `ValueError` escaping `run_job` on a non-numeric config value. -/
def run_job_load_backoff_base (cfgVal : String) : Option Int :=
  pyIntOfString cfgVal

/-- Function `compute_backoff` (lines 203-209) as it would behave if handed the raw
config string, exercising its `try/except` fallback to base 2. -/
def compute_backoff_str (base : String) (attempts : Int) : Int :=
  match pyIntOfString base with
  | some b => b ^ (max attempts 0).toNat
  | none => 2 ^ (max attempts 0).toNat

/-- The `ExecutionResult` of one attempt: `return_code, stdout, stderr, duration_ms`. -/
structure ExecResult where
  rc : Int
  stdout : String
  stderr : String
  duration_ms : Int
deriving DecidableEq, Repr

/-- The outcomes of the external command invocation in `run_job`
(lines 220-228): `subprocess.run` returns a completed process; or raises
`subprocess.TimeoutExpired` carrying whatever output was captured so far; or —
because `capture_output=True, text=True` decodes the captured output
strictly — raises an exception the `except` clause does not name, such as
`UnicodeDecodeError` when the command emits bytes that are not valid
UTF-8. -/
inductive RunOutcome where
  | completed (returncode : Int) (stdout stderr : String)
  | timeoutExpired (stdout stderr : Option String)
  | uncaughtFault (exc : String)
deriving DecidableEq, Repr

/-- The execution layer of `run_job` (lines 219-229): the `try/except` around
`subprocess.run`, whose only handler is `except subprocess.TimeoutExpired`.
Normal completion yields its result; on timeout the result is `rc = -1`, the
captured stdout (or empty), and stderr with `TIMEOUT after <t>s` appended;
any other exception raised by the invocation is not caught and propagates to
the caller, modelled `Except.error`. -/
def executeCommand (job_timeout : Int) (duration_ms : Int) (o : RunOutcome) :
    Except String ExecResult :=
  match o with
  | .completed rc out err => .ok ⟨rc, out, err, duration_ms⟩
  | .timeoutExpired out err =>
      .ok ⟨-1, out.getD "",
        err.getD "" ++ ("TIMEOUT after " ++ toString job_timeout ++ "s"),
        duration_ms⟩
  | .uncaughtFault exc => .error exc

/-- The success UPDATE of `run_job` (lines 231-235): `state='completed',
attempts=attempts`, record result fields, clear both lock fields. -/
def successUpdate (now2 : Int) (res : ExecResult) (j : Job) : Job :=
  { j with
    state := .completed
    return_code := some res.rc
    stdout := some res.stdout
    stderr := some res.stderr
    duration_ms := some res.duration_ms
    updated_at := now2
    locked_by := none
    locked_at := none }

/-- The dead-letter UPDATE of `run_job` (lines 243-246): `state='dead'`,
post-increment attempts, `last_error='Exit code <rc>'`, result fields, clear
both lock fields. -/
def deadUpdate (now2 attempts : Int) (res : ExecResult) (j : Job) : Job :=
  { j with
    state := .dead
    attempts := attempts
    last_error := some ("Exit code " ++ toString res.rc)
    return_code := some res.rc
    stdout := some res.stdout
    stderr := some res.stderr
    duration_ms := some res.duration_ms
    updated_at := now2
    locked_by := none
    locked_at := none }

/-- The retry UPDATE of `run_job` (lines 251-254): `state='failed'`,
post-increment attempts, `last_error='Exit code <rc>'`, result fields,
`next_run_at` set to the scheduled retry time, clear both lock fields. -/
def failedUpdate (now2 attempts next_run : Int) (res : ExecResult) (j : Job) :
    Job :=
  { j with
    state := .failed
    attempts := attempts
    last_error := some ("Exit code " ++ toString res.rc)
    return_code := some res.rc
    stdout := some res.stdout
    stderr := some res.stderr
    duration_ms := some res.duration_ms
    next_run_at := some next_run
    updated_at := now2
    locked_by := none
    locked_at := none }

/-- The completion section of `run_job` (lines 230-254), acting on the jobs
table. On `rc == 0` the success UPDATE keyed by id. Otherwise re-read
`attempts, max_retries` by id (`none` models Python raising when the row is
missing), increment attempts, and either dead-letter (`attempts > max_retries`)
or schedule a retry at `now + compute_backoff base attempts`. -/
def run_job_complete (now2 base : Int) (res : ExecResult) (job_id : String)
    (jobs : List Job) : Option (List Job) :=
  if res.rc = 0 then
    some (jobs.map (fun k =>
      if decide (k.id = job_id) then successUpdate now2 res k else k))
  else
    match jobs.find? (fun k => decide (k.id = job_id)) with
    | none => none
    | some cur =>
      let attempts := cur.attempts + 1
      let max_retries := cur.max_retries
      if attempts > max_retries then
        some (jobs.map (fun k =>
          if decide (k.id = job_id) then deadUpdate now2 attempts res k else k))
      else
        let delay := compute_backoff base attempts
        some (jobs.map (fun k =>
          if decide (k.id = job_id) then
            failedUpdate now2 attempts (now2 + delay) res k
          else k))

/-- One failing completion of a single job's row: the failure branch of
`run_job` (lines 236-254) restricted to the row it updates. -/
def failAttempt (now2 base : Int) (res : ExecResult) (j : Job) : Job :=
  if j.attempts + 1 > j.max_retries then deadUpdate now2 (j.attempts + 1) res j
  else
    failedUpdate now2 (j.attempts + 1)
      (now2 + compute_backoff base (j.attempts + 1)) res j

/-- Iterated failing completions; each step carries its own completion time,
backoff base read from config at that failure, and execution result. -/
def iterFail : List (Int × Int × ExecResult) → Job → Job
  | [], j => j
  | (n, b, r) :: rest, j => iterFail rest (failAttempt n b r j)

/-- The SET clause of `dlq_retry` (lines 162-166): `state='pending',
attempts=0, next_run_at=NULL, last_error=NULL, updated_at=?`. -/
def dlqReset (now : Int) (j : Job) : Job :=
  { j with
    state := .pending
    attempts := 0
    next_run_at := none
    last_error := none
    updated_at := now }

/-- Function `dlq_retry` (lines 154-167). First a SELECT for a row with the given id and
`state='dead'`; if none, exit with an error (NotFound) leaving the table
unchanged (first component `false`); otherwise run the reset UPDATE keyed by
id alone. -/
def dlq_retry (now : Int) (job_id : String) (jobs : List Job) :
    Bool × List Job :=
  if jobs.any (fun j => decide (j.id = job_id) && decide (j.state = JState.dead)) then
    (true,
     jobs.map (fun k => if decide (k.id = job_id) then dlqReset now k else k))
  else
    (false, jobs)

/-- The fields of the caller-supplied job JSON that `enqueue_job` reads
(lines 108-115); each optional field is filled by `setdefault` when absent.
A `state` value outside the five-state enumeration would violate the schema
CHECK constraint, so the parsed state is modelled as `Option JState`. -/
structure JobJson where
  id : Option String
  command : String
  state : Option JState
  attempts : Option Int
  max_retries : Option Int
  created_at : Option Int
  updated_at : Option Int
deriving DecidableEq, Repr

/-- Function `enqueue_job` (lines 106-121): the row inserted by the INSERT of
lines 117-120, with `setdefault` defaults `id=uuid4, state='pending',
attempts=0, max_retries=3, created_at=now, updated_at=now`; columns absent
from the INSERT list default to NULL. -/
def enqueue_job (now : Int) (genId : String) (priority : Int) (jj : JobJson) :
    Job :=
  { id := jj.id.getD genId
    command := jj.command
    state := jj.state.getD .pending
    attempts := jj.attempts.getD 0
    max_retries := jj.max_retries.getD 3
    created_at := jj.created_at.getD now
    updated_at := jj.updated_at.getD now
    last_error := none
    next_run_at := none
    locked_by := none
    locked_at := none
    priority := priority
    return_code := none
    stdout := none
    stderr := none
    duration_ms := none }

/-- The operations of the CLI surface that touch (or could touch) the jobs
table: submission, the atomic claim, the completion of an attempt, the manual
DLQ requeue, and the read-only / non-job operations. -/
inductive StoreOp where
  | enqueue (now : Int) (genId : String) (priority : Int) (jj : JobJson)
  | claim (now : Int) (worker_id : String)
  | complete (now2 base : Int) (res : ExecResult) (job_id : String)
  | requeue (now : Int) (job_id : String)
  | listJobs (state : Option JState) (limit : Nat)
  | statusQuery
  | dlqList (limit : Nat)
  | configSet (key value : String)
deriving DecidableEq, Repr

/-- The three lifecycle operations of spec sections 4.1-4.3 plus manual
requeue: the only operations allowed to change `state`/`locked_by`. -/
def isLifecycleOp : StoreOp → Bool
  | .claim _ _ => true
  | .complete _ _ _ _ => true
  | .requeue _ _ => true
  | _ => false

/-- Effect of each operation on the jobs table. `list`, `status` and `dlq list`
only SELECT; `config set` writes the config table; `enqueue` INSERTs one new
row; the lifecycle operations are the ones defined above. -/
def applyOp : StoreOp → List Job → List Job
  | .enqueue now genId priority jj, jobs =>
      jobs ++ [enqueue_job now genId priority jj]
  | .claim now w, jobs => (acquire_job now w jobs).2
  | .complete now2 base res job_id, jobs =>
      (run_job_complete now2 base res job_id jobs).getD jobs
  | .requeue now job_id, jobs => (dlq_retry now job_id jobs).2
  | .listJobs _ _, jobs => jobs
  | .statusQuery, jobs => jobs
  | .dlqList _, jobs => jobs
  | .configSet _ _, jobs => jobs

/-- The database/process effects of `spawn_workers` (lines 296-316) in program
order: first `UPDATE control SET value='0' WHERE key='shutdown'` (line 300),
then one `subprocess.Popen` per requested worker (lines 302-307). -/
inductive SpawnAction where
  | resetShutdown
  | startWorker (index : Nat)
deriving DecidableEq, Repr

/-- Function `spawn_workers` (lines 296-316) as its trace of effects. -/
def spawn_workers (count : Nat) : List SpawnAction :=
  SpawnAction.resetShutdown :: (List.range count).map SpawnAction.startWorker

/-- Effect of one spawn action on the control table's `shutdown` flag. -/
def applySpawnAction (flag : String) : SpawnAction → String
  | .resetShutdown => "0"
  | .startWorker _ => flag

/-- Run a trace of spawn actions over the `shutdown` flag. -/
def runSpawnActions (flag : String) : List SpawnAction → String
  | [] => flag
  | a :: rest => runSpawnActions (applySpawnAction flag a) rest

/-! ### Properties of the claim order -/

theorem better_eq_true_iff (a b : Job) :
    better a b = true ↔
      a.priority < b.priority ∨
        (a.priority = b.priority ∧ b.created_at < a.created_at) := by
  simp [better]

theorem better_eq_false_iff (a b : Job) :
    better a b = false ↔
      ¬(a.priority < b.priority ∨
        (a.priority = b.priority ∧ b.created_at < a.created_at)) := by
  rw [← Bool.not_eq_true, better_eq_true_iff]

theorem better_irrefl (a : Job) : better a a = false := by
  rw [better_eq_false_iff]; omega

theorem better_asymm {a b : Job} (h : better a b = true) :
    better b a = false := by
  rw [better_eq_true_iff] at h; rw [better_eq_false_iff]; omega

theorem better_trans {a b c : Job} (h1 : better a b = true)
    (h2 : better b c = true) : better a c = true := by
  rw [better_eq_true_iff] at h1 h2 ⊢; omega

theorem better_neg_trans {a b c : Job} (h1 : better a b = false)
    (h2 : better b c = false) : better a c = false := by
  rw [better_eq_false_iff] at h1 h2 ⊢; omega

/-! ### Properties of job selection -/

theorem selectFrom_mem (now : Int) (b : Job) (l : List Job) :
    selectFrom now b l = b ∨ selectFrom now b l ∈ l := by
  induction l generalizing b with
  | nil => exact Or.inl rfl
  | cons j rest ih =>
    simp only [selectFrom]
    by_cases h : (eligible now j && better b j) = true
    · rw [if_pos h]
      rcases ih j with h' | h'
      · exact Or.inr (by rw [h']; exact List.mem_cons_self j rest)
      · exact Or.inr (List.mem_cons_of_mem _ h')
    · rw [if_neg h]
      rcases ih b with h' | h'
      · exact Or.inl h'
      · exact Or.inr (List.mem_cons_of_mem _ h')

theorem selectFrom_eligible (now : Int) (b : Job) (l : List Job)
    (hb : eligible now b = true) :
    eligible now (selectFrom now b l) = true := by
  induction l generalizing b with
  | nil => exact hb
  | cons j rest ih =>
    simp only [selectFrom]
    by_cases h : (eligible now j && better b j) = true
    · rw [if_pos h]
      rw [Bool.and_eq_true] at h
      exact ih j h.1
    · rw [if_neg h]
      exact ih b hb

theorem selectFrom_ge (now : Int) (b : Job) (l : List Job) :
    better b (selectFrom now b l) = true ∨ selectFrom now b l = b := by
  induction l generalizing b with
  | nil => exact Or.inr rfl
  | cons j rest ih =>
    simp only [selectFrom]
    by_cases h : (eligible now j && better b j) = true
    · rw [if_pos h]
      rw [Bool.and_eq_true] at h
      rcases ih j with h' | h'
      · exact Or.inl (better_trans h.2 h')
      · exact Or.inl (by rw [h']; exact h.2)
    · rw [if_neg h]
      exact ih b

theorem selectFrom_opt (now : Int) (b : Job) (l : List Job) :
    ∀ k ∈ l, eligible now k = true → better (selectFrom now b l) k = false := by
  induction l generalizing b with
  | nil => intro k hk; exact absurd hk (List.not_mem_nil k)
  | cons j rest ih =>
    intro k hk hel
    simp only [selectFrom]
    by_cases h : (eligible now j && better b j) = true
    · rw [if_pos h]
      rcases List.mem_cons.mp hk with rfl | hk'
      · rcases selectFrom_ge now k rest with h' | h'
        · exact better_asymm h'
        · rw [h']; exact better_irrefl k
      · exact ih j k hk' hel
    · rw [if_neg h]
      rcases List.mem_cons.mp hk with rfl | hk'
      · have hbj : better b k = false := by
          cases hb2 : better b k with
          | false => rfl
          | true => exact absurd (by rw [Bool.and_eq_true]; exact ⟨hel, hb2⟩) h
        rcases selectFrom_ge now b rest with h' | h'
        · cases hc : better (selectFrom now b rest) k with
          | false => rfl
          | true =>
            have hbk := better_trans h' hc
            rw [hbk] at hbj
            simp at hbj
        · rw [h']; exact hbj
      · exact ih b k hk' hel

theorem selectJob_eq_none_iff (now : Int) (l : List Job) :
    selectJob now l = none ↔ ∀ j ∈ l, eligible now j = false := by
  induction l with
  | nil => simp [selectJob]
  | cons j rest ih =>
    simp only [selectJob]
    by_cases h : eligible now j = true
    · rw [if_pos h]
      constructor
      · intro hc; exact absurd hc (by simp)
      · intro hall
        have := hall j (List.mem_cons_self j rest)
        rw [h] at this
        simp at this
    · rw [if_neg h]
      rw [Bool.not_eq_true] at h
      rw [ih]
      constructor
      · intro hall k hk
        rcases List.mem_cons.mp hk with rfl | hk'
        · exact h
        · exact hall k hk'
      · intro hall k hk
        exact hall k (List.mem_cons_of_mem _ hk)

theorem selectJob_some_spec (now : Int) (l : List Job) (j : Job)
    (h : selectJob now l = some j) :
    j ∈ l ∧ eligible now j = true ∧
      ∀ k ∈ l, eligible now k = true → better j k = false := by
  induction l with
  | nil => simp [selectJob] at h
  | cons a rest ih =>
    simp only [selectJob] at h
    by_cases ha : eligible now a = true
    · rw [if_pos ha] at h
      have hj := Option.some.inj h
      subst hj
      refine ⟨?_, selectFrom_eligible now a rest ha, ?_⟩
      · rcases selectFrom_mem now a rest with h' | h'
        · rw [h']; exact List.mem_cons_self a rest
        · exact List.mem_cons_of_mem _ h'
      · intro k hk hel
        rcases List.mem_cons.mp hk with rfl | hk'
        · rcases selectFrom_ge now k rest with h' | h'
          · exact better_asymm h'
          · rw [h']; exact better_irrefl k
        · exact selectFrom_opt now a rest k hk' hel
    · rw [if_neg ha] at h
      obtain ⟨hmem, hel, hopt⟩ := ih h
      refine ⟨List.mem_cons_of_mem _ hmem, hel, ?_⟩
      intro k hk hke
      rcases List.mem_cons.mp hk with rfl | hk'
      · rw [Bool.not_eq_true] at ha
        rw [ha] at hke
        simp at hke
      · exact hopt k hk' hke

/-! ### Row-addressing lemmas for tables with unique ids -/

theorem countP_eq_one_of_unique_id (jobs : List Job)
    (hnd : (jobs.map Job.id).Nodup) (j : Job) (hj : j ∈ jobs)
    (p : Job → Bool) (hpj : p j = true) (hid : ∀ k, p k = true → k.id = j.id) :
    jobs.countP p = 1 := by
  induction jobs with
  | nil => exact absurd hj (List.not_mem_nil j)
  | cons a rest ih =>
    rw [List.map_cons, List.nodup_cons] at hnd
    rcases List.mem_cons.mp hj with rfl | hj'
    · rw [List.countP_cons, hpj]
      have hz : rest.countP p = 0 := by
        rw [List.countP_eq_zero]
        intro k hk hc
        exact hnd.1 (by rw [← hid k hc]; exact List.mem_map_of_mem Job.id hk)
      simp [hz]
    · have hpa : p a = false := by
        cases hc : p a with
        | false => rfl
        | true =>
          exact absurd (by rw [hid a hc]; exact List.mem_map_of_mem Job.id hj')
            hnd.1
      rw [List.countP_cons, hpa]
      simpa using ih hnd.2 hj'

theorem find_map_guarded (jobs : List Job) (hnd : (jobs.map Job.id).Nodup)
    (j : Job) (hj : j ∈ jobs) (c : Job → Bool) (f : Job → Job)
    (hf : ∀ k, (f k).id = k.id) (hcj : c j = true) :
    (jobs.map (fun k => if decide (k.id = j.id) && c k then f k else k)).find?
        (fun k => decide (k.id = j.id)) = some (f j) := by
  induction jobs with
  | nil => exact absurd hj (List.not_mem_nil j)
  | cons a rest ih =>
    rw [List.map_cons, List.nodup_cons] at hnd
    rcases List.mem_cons.mp hj with rfl | hj'
    · have hhead : (if decide (j.id = j.id) && c j then f j else j) = f j := by
        simp [hcj]
      rw [List.map_cons, hhead]
      apply List.find?_cons_of_pos
      simp [hf j]
    · have hne : ¬(a.id = j.id) := by
        intro he
        exact hnd.1 (by rw [he]; exact List.mem_map_of_mem Job.id hj')
      have hhead : (if decide (a.id = j.id) && c a then f a else a) = a := by
        simp [hne]
      rw [List.map_cons, hhead]
      rw [List.find?_cons_of_neg _ (by simp [hne])]
      exact ih hnd.2 hj'

theorem find_map_id_preserving (jobs : List Job)
    (hnd : (jobs.map Job.id).Nodup) (j : Job) (hj : j ∈ jobs) (f : Job → Job)
    (hf : ∀ k, (f k).id = k.id) :
    (jobs.map (fun k => if decide (k.id = j.id) then f k else k)).find?
        (fun k => decide (k.id = j.id)) = some (f j) := by
  induction jobs with
  | nil => exact absurd hj (List.not_mem_nil j)
  | cons a rest ih =>
    rw [List.map_cons, List.nodup_cons] at hnd
    rcases List.mem_cons.mp hj with rfl | hj'
    · have hhead : (if decide (j.id = j.id) then f j else j) = f j := by simp
      rw [List.map_cons, hhead]
      apply List.find?_cons_of_pos
      simp [hf j]
    · have hne : ¬(a.id = j.id) := by
        intro he
        exact hnd.1 (by rw [he]; exact List.mem_map_of_mem Job.id hj')
      have hhead : (if decide (a.id = j.id) then f a else a) = a := by
        simp [hne]
      rw [List.map_cons, hhead]
      rw [List.find?_cons_of_neg _ (by simp [hne])]
      exact ih hnd.2 hj'

theorem find_id_self (jobs : List Job) (hnd : (jobs.map Job.id).Nodup)
    (j : Job) (hj : j ∈ jobs) :
    jobs.find? (fun k => decide (k.id = j.id)) = some j := by
  induction jobs with
  | nil => exact absurd hj (List.not_mem_nil j)
  | cons a rest ih =>
    rw [List.map_cons, List.nodup_cons] at hnd
    rcases List.mem_cons.mp hj with rfl | hj'
    · exact List.find?_cons_of_pos _ (by simp)
    · have hne : ¬(a.id = j.id) := by
        intro he
        exact hnd.1 (by rw [he]; exact List.mem_map_of_mem Job.id hj')
      rw [List.find?_cons_of_neg _ (by simp [hne])]
      exact ih hnd.2 hj'

theorem id_inj_of_nodup (jobs : List Job) (hnd : (jobs.map Job.id).Nodup)
    {a b : Job} (ha : a ∈ jobs) (hb : b ∈ jobs) (hab : a.id = b.id) : a = b :=
  List.inj_on_of_nodup_map hnd ha hb hab

/-! ### Characterization of the atomic claim -/

theorem claimUpdate_id (now : Int) (w : String) (j : Job) :
    (claimUpdate now w j).id = j.id := rfl

theorem claimable_of_eligible {now : Int} {j : Job}
    (h : eligible now j = true) : claimable j = true := by
  rw [eligible, Bool.and_eq_true] at h
  exact h.1

theorem claimable_processing {j : Job} (h : j.state = JState.processing) :
    claimable j = false := by
  unfold claimable
  rw [h]

theorem acquire_job_eq (now : Int) (w : String) (jobs : List Job) :
    acquire_job now w jobs =
      match selectJob now jobs with
      | none => (none, jobs)
      | some sel =>
        if jobs.countP (fun k => decide (k.id = sel.id) && claimable k) = 1 then
          ((claimedTable now w sel.id jobs).find?
              (fun k => decide (k.id = sel.id)),
           claimedTable now w sel.id jobs)
        else (none, jobs) := rfl

theorem acquire_job_of_selected (now : Int) (w : String) (jobs : List Job)
    (hnd : (jobs.map Job.id).Nodup) (sel : Job)
    (hsel : selectJob now jobs = some sel) :
    acquire_job now w jobs =
      (some (claimUpdate now w sel), claimedTable now w sel.id jobs) := by
  obtain ⟨hmem, hel, hopt⟩ := selectJob_some_spec now jobs sel hsel
  have hcl : claimable sel = true := claimable_of_eligible hel
  have hcount :
      jobs.countP (fun k => decide (k.id = sel.id) && claimable k) = 1 :=
    countP_eq_one_of_unique_id jobs hnd sel hmem _ (by simp [hcl])
      (fun k hk => by
        rw [Bool.and_eq_true, decide_eq_true_eq] at hk
        exact hk.1)
  have hfind :
      (claimedTable now w sel.id jobs).find? (fun k => decide (k.id = sel.id)) =
        some (claimUpdate now w sel) :=
    find_map_guarded jobs hnd sel hmem claimable (claimUpdate now w)
      (fun _ => rfl) hcl
  rw [acquire_job_eq, hsel]
  simp only [if_pos hcount, hfind]

theorem acquire_job_some_spec (now : Int) (w : String) (jobs : List Job)
    (hnd : (jobs.map Job.id).Nodup) (r : Job)
    (h : (acquire_job now w jobs).1 = some r) :
    ∃ j, j ∈ jobs ∧ eligible now j = true ∧
      (∀ k ∈ jobs, eligible now k = true → better j k = false) ∧
      r = claimUpdate now w j ∧
      (acquire_job now w jobs).2 = claimedTable now w j.id jobs := by
  cases hsel : selectJob now jobs with
  | none =>
    rw [acquire_job_eq, hsel] at h
    simp at h
  | some sel =>
    obtain ⟨hmem, hel, hopt⟩ := selectJob_some_spec now jobs sel hsel
    have heq := acquire_job_of_selected now w jobs hnd sel hsel
    rw [heq] at h
    simp only at h
    exact ⟨sel, hmem, hel, hopt, (Option.some.inj h).symm, by rw [heq]⟩

theorem acquire_job_fst_none_iff (now : Int) (w : String) (jobs : List Job)
    (hnd : (jobs.map Job.id).Nodup) :
    (acquire_job now w jobs).1 = none ↔ ∀ j ∈ jobs, eligible now j = false := by
  constructor
  · intro h
    cases hsel : selectJob now jobs with
    | none => exact (selectJob_eq_none_iff now jobs).mp hsel
    | some sel =>
      rw [acquire_job_of_selected now w jobs hnd sel hsel] at h
      simp at h
  · intro hall
    rw [acquire_job_eq, (selectJob_eq_none_iff now jobs).mpr hall]

theorem acquire_job_none_unchanged (now : Int) (w : String) (jobs : List Job)
    (hnd : (jobs.map Job.id).Nodup)
    (h : (acquire_job now w jobs).1 = none) :
    (acquire_job now w jobs).2 = jobs := by
  cases hsel : selectJob now jobs with
  | none => rw [acquire_job_eq, hsel]
  | some sel =>
    rw [acquire_job_of_selected now w jobs hnd sel hsel] at h
    simp at h

theorem acquire_job_selected_commit (now : Int) (w : String)
    (jobs : List Job) (sel : Job) (hsel : selectJob now jobs = some sel)
    (hc : jobs.countP (fun k => decide (k.id = sel.id) && claimable k) = 1) :
    acquire_job now w jobs =
      ((claimedTable now w sel.id jobs).find?
          (fun k => decide (k.id = sel.id)),
       claimedTable now w sel.id jobs) := by
  rw [acquire_job_eq, hsel]
  exact if_pos hc

theorem acquire_job_selected_rollback (now : Int) (w : String)
    (jobs : List Job) (sel : Job) (hsel : selectJob now jobs = some sel)
    (hc : ¬jobs.countP (fun k => decide (k.id = sel.id) && claimable k) = 1) :
    acquire_job now w jobs = (none, jobs) := by
  rw [acquire_job_eq, hsel]
  exact if_neg hc

theorem mem_claimedTable_of_nonclaimable (now : Int) (w sid : String)
    (jobs : List Job) (j : Job) (hj : j ∈ jobs) (hcl : claimable j = false) :
    j ∈ claimedTable now w sid jobs := by
  refine List.mem_map.mpr ⟨j, hj, ?_⟩
  simp [hcl]

theorem acquire_preserves_nonclaimable (now : Int) (w : String)
    (jobs : List Job) (j : Job) (hj : j ∈ jobs) (hcl : claimable j = false) :
    j ∈ (acquire_job now w jobs).2 := by
  cases hsel : selectJob now jobs with
  | none => rw [acquire_job_eq, hsel]; exact hj
  | some sel =>
    by_cases hc :
        jobs.countP (fun k => decide (k.id = sel.id) && claimable k) = 1
    · rw [acquire_job_selected_commit now w jobs sel hsel hc]
      exact mem_claimedTable_of_nonclaimable now w sel.id jobs j hj hcl
    · rw [acquire_job_selected_rollback now w jobs sel hsel hc]
      exact hj

theorem claimedTable_map_id (now : Int) (w sid : String) (jobs : List Job) :
    (claimedTable now w sid jobs).map Job.id = jobs.map Job.id := by
  unfold claimedTable
  induction jobs with
  | nil => rfl
  | cons a rest ih =>
    simp only [List.map_cons]
    congr 1
    by_cases h : (decide (a.id = sid) && claimable a) = true
    · rw [if_pos h]; rfl
    · rw [if_neg h]

theorem acquire_preserves_ids (now : Int) (w : String) (jobs : List Job) :
    (acquire_job now w jobs).2.map Job.id = jobs.map Job.id := by
  cases hsel : selectJob now jobs with
  | none => rw [acquire_job_eq, hsel]
  | some sel =>
    by_cases hc :
        jobs.countP (fun k => decide (k.id = sel.id) && claimable k) = 1
    · rw [acquire_job_selected_commit now w jobs sel hsel hc]
      exact claimedTable_map_id now w sel.id jobs
    · rw [acquire_job_selected_rollback now w jobs sel hsel hc]

theorem claimed_mem (now : Int) (w : String) (jobs : List Job) (sel : Job)
    (hmem : sel ∈ jobs) (hcl : claimable sel = true) :
    claimUpdate now w sel ∈ claimedTable now w sel.id jobs := by
  unfold claimedTable
  refine List.mem_map.mpr ⟨sel, hmem, ?_⟩
  simp [hcl]

theorem claimSeq_cons_some (t : Int) (w : String)
    (rest : List (Int × String)) (jobs : List Job) (j : Job)
    (h : (acquire_job t w jobs).1 = some j) :
    claimSeq ((t, w) :: rest) jobs =
      (j :: (claimSeq rest (acquire_job t w jobs).2).1,
       (claimSeq rest (acquire_job t w jobs).2).2) := by
  simp only [claimSeq, h]

theorem claimSeq_cons_none (t : Int) (w : String)
    (rest : List (Int × String)) (jobs : List Job)
    (h : (acquire_job t w jobs).1 = none) :
    claimSeq ((t, w) :: rest) jobs =
      ((claimSeq rest (acquire_job t w jobs).2).1,
       (claimSeq rest (acquire_job t w jobs).2).2) := by
  simp only [claimSeq, h]

theorem claimSeq_no_double (calls : List (Int × String)) (jobs : List Job)
    (hnd : (jobs.map Job.id).Nodup) :
    ((claimSeq calls jobs).1.map Job.id).Nodup ∧
      ∀ j ∈ jobs, j.state = JState.processing →
        ∀ r ∈ (claimSeq calls jobs).1, ¬(r.id = j.id) := by
  induction calls generalizing jobs with
  | nil =>
    constructor
    · simp [claimSeq]
    · intro j hj hs r hr
      simp [claimSeq] at hr
  | cons c rest ih =>
    obtain ⟨t, w⟩ := c
    have hnd' : ((acquire_job t w jobs).2.map Job.id).Nodup := by
      rw [acquire_preserves_ids]; exact hnd
    obtain ⟨ihnd, ihproc⟩ := ih (acquire_job t w jobs).2 hnd'
    cases hstep : (acquire_job t w jobs).1 with
    | none =>
      rw [claimSeq_cons_none t w rest jobs hstep]
      refine ⟨ihnd, ?_⟩
      intro j hj hs r hr
      have hjmem : j ∈ (acquire_job t w jobs).2 :=
        acquire_preserves_nonclaimable t w jobs j hj (claimable_processing hs)
      exact ihproc j hjmem hs r hr
    | some r0 =>
      obtain ⟨sel, hselmem, hel, -, hr0, hsnd⟩ :=
        acquire_job_some_spec t w jobs hnd r0 hstep
      rw [claimSeq_cons_some t w rest jobs r0 hstep]
      have hr0mem : r0 ∈ (acquire_job t w jobs).2 := by
        rw [hsnd, hr0]
        exact claimed_mem t w jobs sel hselmem (claimable_of_eligible hel)
      have hr0proc : r0.state = JState.processing := by rw [hr0]; rfl
      constructor
      · rw [List.map_cons, List.nodup_cons]
        refine ⟨?_, ihnd⟩
        intro hmem
        obtain ⟨q, hq, hqid⟩ := List.mem_map.mp hmem
        exact absurd hqid (ihproc r0 hr0mem hr0proc q hq)
      · intro j hj hs r hr
        rcases List.mem_cons.mp hr with rfl | hr'
        · intro he
          have hsel_id : r.id = sel.id := by rw [hr0]; rfl
          rw [hsel_id] at he
          have hsj := id_inj_of_nodup jobs hnd hselmem hj he
          have hclt := claimable_of_eligible hel
          rw [hsj, claimable_processing hs] at hclt
          simp at hclt
        · have hjmem : j ∈ (acquire_job t w jobs).2 :=
            acquire_preserves_nonclaimable t w jobs j hj (claimable_processing hs)
          exact ihproc j hjmem hs r hr'

/-! ### Claim C1 -/

/-- Claim C1: when N workers call claim concurrently against the same store —
their transactions serialized by the store's exclusive-write mode — each
eligible job is returned to at most one caller (the returned job ids are
pairwise distinct) and a job whose state is already processing is never
returned: no two claim calls of the sequence return the same job id while
that job is processing. -/
theorem C1_no_double_claim (calls : List (Int × String)) (jobs : List Job)
    (hnd : (jobs.map Job.id).Nodup) :
    ((claimSeq calls jobs).1.map Job.id).Nodup ∧
      ∀ j ∈ jobs, j.state = JState.processing →
        ∀ r ∈ (claimSeq calls jobs).1, ¬(r.id = j.id) :=
  claimSeq_no_double calls jobs hnd

/-- A pending job of the sample store for the claim-safety witness. -/
def jobC1A : Job :=
  { id := "a"
    command := "echo hi"
    state := .pending
    attempts := 0
    max_retries := 3
    created_at := 0
    updated_at := 0
    last_error := none
    next_run_at := none
    locked_by := none
    locked_at := none
    priority := 0
    return_code := none
    stdout := none
    stderr := none
    duration_ms := none }

/-- A job already being processed by another worker, for the same witness. -/
def jobC1B : Job :=
  { jobC1A with
    id := "b"
    state := .processing
    locked_by := some "w0"
    locked_at := some 1 }

theorem C1_no_double_claim_witness :
    ((claimSeq [(5, "w1"), (5, "w2")] [jobC1A, jobC1B]).1.map Job.id).Nodup ∧
      ∀ j ∈ [jobC1A, jobC1B], j.state = JState.processing →
        ∀ r ∈ (claimSeq [(5, "w1"), (5, "w2")] [jobC1A, jobC1B]).1,
          ¬(r.id = j.id) :=
  C1_no_double_claim [(5, "w1"), (5, "w2")] [jobC1A, jobC1B] (by decide)

/-! ### Claim C2 -/

/-- Claim C2: claim selects the single job with state in pending or failed
whose next_run_at is null or ≤ now, maximal under priority descending then
created_at ascending; if one exists it is set to processing with
locked_by = worker and locked_at = now and the full updated record is
returned; if no job is eligible, or the guarded conditional update matches no
row, claim returns none and the jobs table is unchanged. -/
theorem C2_claim_semantics (now : Int) (w : String) (jobs : List Job)
    (hnd : (jobs.map Job.id).Nodup) :
    ((acquire_job now w jobs).1 = none ↔ ∀ j ∈ jobs, eligible now j = false) ∧
    ((acquire_job now w jobs).1 = none → (acquire_job now w jobs).2 = jobs) ∧
    (∀ r, (acquire_job now w jobs).1 = some r →
      ∃ j, j ∈ jobs ∧ eligible now j = true ∧
        (∀ k ∈ jobs, eligible now k = true → better j k = false) ∧
        r = claimUpdate now w j ∧
        r.state = JState.processing ∧ r.locked_by = some w ∧
        r.locked_at = some now ∧
        (acquire_job now w jobs).2 = claimedTable now w j.id jobs) := by
  refine ⟨acquire_job_fst_none_iff now w jobs hnd,
    acquire_job_none_unchanged now w jobs hnd, ?_⟩
  intro r hr
  obtain ⟨j, hmem, hel, hopt, hru, hsnd⟩ :=
    acquire_job_some_spec now w jobs hnd r hr
  exact ⟨j, hmem, hel, hopt, hru, by rw [hru]; rfl, by rw [hru]; rfl,
    by rw [hru]; rfl, hsnd⟩

/-- A failed job whose retry delay has elapsed, for the claim witness. -/
def jobC2A : Job :=
  { id := "c2"
    command := "exit 1"
    state := .failed
    attempts := 1
    max_retries := 3
    created_at := 0
    updated_at := 2
    last_error := some "Exit code 1"
    next_run_at := some 4
    locked_by := none
    locked_at := none
    priority := 0
    return_code := some 1
    stdout := some ""
    stderr := some ""
    duration_ms := some 3
    }

theorem C2_claim_semantics_witness :
    ((acquire_job 5 "w1" [jobC2A]).1 = none ↔
        ∀ j ∈ [jobC2A], eligible 5 j = false) ∧
    ((acquire_job 5 "w1" [jobC2A]).1 = none →
        (acquire_job 5 "w1" [jobC2A]).2 = [jobC2A]) ∧
    (∀ r, (acquire_job 5 "w1" [jobC2A]).1 = some r →
      ∃ j, j ∈ [jobC2A] ∧ eligible 5 j = true ∧
        (∀ k ∈ [jobC2A], eligible 5 k = true → better j k = false) ∧
        r = claimUpdate 5 "w1" j ∧
        r.state = JState.processing ∧ r.locked_by = some "w1" ∧
        r.locked_at = some 5 ∧
        (acquire_job 5 "w1" [jobC2A]).2 = claimedTable 5 "w1" j.id [jobC2A]) :=
  C2_claim_semantics 5 "w1" [jobC2A] (by decide)

/-! ### Characterization of attempt completion -/

theorem run_job_complete_success (now2 base : Int) (res : ExecResult)
    (job_id : String) (jobs : List Job) (h : res.rc = 0) :
    run_job_complete now2 base res job_id jobs =
      some (jobs.map (fun k =>
        if decide (k.id = job_id) then successUpdate now2 res k else k)) := by
  unfold run_job_complete
  rw [if_pos h]

theorem run_job_complete_fail_dead (now2 base : Int) (res : ExecResult)
    (jobs : List Job) (j : Job) (hnd : (jobs.map Job.id).Nodup) (hj : j ∈ jobs)
    (h : ¬res.rc = 0) (hd : j.attempts + 1 > j.max_retries) :
    run_job_complete now2 base res j.id jobs =
      some (jobs.map (fun k =>
        if decide (k.id = j.id) then deadUpdate now2 (j.attempts + 1) res k
        else k)) := by
  unfold run_job_complete
  rw [if_neg h, find_id_self jobs hnd j hj]
  exact if_pos hd

theorem run_job_complete_fail_retry (now2 base : Int) (res : ExecResult)
    (jobs : List Job) (j : Job) (hnd : (jobs.map Job.id).Nodup) (hj : j ∈ jobs)
    (h : ¬res.rc = 0) (hd : ¬j.attempts + 1 > j.max_retries) :
    run_job_complete now2 base res j.id jobs =
      some (jobs.map (fun k =>
        if decide (k.id = j.id) then
          failedUpdate now2 (j.attempts + 1)
            (now2 + compute_backoff base (j.attempts + 1)) res k
        else k)) := by
  unfold run_job_complete
  rw [if_neg h, find_id_self jobs hnd j hj]
  exact if_neg hd

theorem run_job_complete_singleton_fail (now2 base : Int) (res : ExecResult)
    (j : Job) (h : ¬res.rc = 0) :
    run_job_complete now2 base res j.id [j] =
      some [failAttempt now2 base res j] := by
  unfold failAttempt
  by_cases hd : j.attempts + 1 > j.max_retries
  · rw [run_job_complete_fail_dead now2 base res [j] j (by simp) (by simp) h hd,
      if_pos hd]
    simp
  · rw [run_job_complete_fail_retry now2 base res [j] j (by simp) (by simp) h hd,
      if_neg hd]
    simp

/-! ### Claim C3 -/

/-- Claim C3 (amended): on completion of one attempt of a job, a zero return
code yields state completed with result fields recorded, lock fields cleared
and attempts unchanged; a nonzero return code increments attempts, and then
either the job becomes dead with last_error "Exit code <rc>" and lock fields
cleared (when attempts exceed max_retries), or it becomes failed with
next_run_at = now + backoff(attempts) and lock fields cleared. (The claim as
stated demands the lowercase message "exit code <rc>"; the code writes
"Exit code <rc>".) -/
theorem C3_completion_semantics (now2 base : Int) (res : ExecResult)
    (jobs : List Job) (j : Job)
    (hnd : (jobs.map Job.id).Nodup) (hj : j ∈ jobs) :
    (res.rc = 0 →
      ∃ jobs', run_job_complete now2 base res j.id jobs = some jobs' ∧
        jobs'.find? (fun k => decide (k.id = j.id)) =
          some (successUpdate now2 res j) ∧
        (successUpdate now2 res j).state = JState.completed ∧
        (successUpdate now2 res j).attempts = j.attempts ∧
        (successUpdate now2 res j).return_code = some res.rc ∧
        (successUpdate now2 res j).stdout = some res.stdout ∧
        (successUpdate now2 res j).stderr = some res.stderr ∧
        (successUpdate now2 res j).duration_ms = some res.duration_ms ∧
        (successUpdate now2 res j).locked_by = none ∧
        (successUpdate now2 res j).locked_at = none) ∧
    (¬res.rc = 0 → j.attempts + 1 > j.max_retries →
      ∃ jobs', run_job_complete now2 base res j.id jobs = some jobs' ∧
        jobs'.find? (fun k => decide (k.id = j.id)) =
          some (deadUpdate now2 (j.attempts + 1) res j) ∧
        (deadUpdate now2 (j.attempts + 1) res j).state = JState.dead ∧
        (deadUpdate now2 (j.attempts + 1) res j).attempts = j.attempts + 1 ∧
        (deadUpdate now2 (j.attempts + 1) res j).last_error =
          some ("Exit code " ++ toString res.rc) ∧
        (deadUpdate now2 (j.attempts + 1) res j).locked_by = none ∧
        (deadUpdate now2 (j.attempts + 1) res j).locked_at = none) ∧
    (¬res.rc = 0 → ¬j.attempts + 1 > j.max_retries →
      ∃ jobs', run_job_complete now2 base res j.id jobs = some jobs' ∧
        jobs'.find? (fun k => decide (k.id = j.id)) =
          some (failedUpdate now2 (j.attempts + 1)
            (now2 + compute_backoff base (j.attempts + 1)) res j) ∧
        (failedUpdate now2 (j.attempts + 1)
            (now2 + compute_backoff base (j.attempts + 1)) res j).state =
          JState.failed ∧
        (failedUpdate now2 (j.attempts + 1)
            (now2 + compute_backoff base (j.attempts + 1)) res j).attempts =
          j.attempts + 1 ∧
        (failedUpdate now2 (j.attempts + 1)
            (now2 + compute_backoff base (j.attempts + 1)) res j).next_run_at =
          some (now2 + compute_backoff base (j.attempts + 1)) ∧
        (failedUpdate now2 (j.attempts + 1)
            (now2 + compute_backoff base (j.attempts + 1)) res j).locked_by =
          none ∧
        (failedUpdate now2 (j.attempts + 1)
            (now2 + compute_backoff base (j.attempts + 1)) res j).locked_at =
          none) := by
  refine ⟨?_, ?_, ?_⟩
  · intro h0
    exact ⟨_, run_job_complete_success now2 base res j.id jobs h0,
      find_map_id_preserving jobs hnd j hj _ (fun _ => rfl),
      rfl, rfl, rfl, rfl, rfl, rfl, rfl, rfl⟩
  · intro h0 hd
    exact ⟨_, run_job_complete_fail_dead now2 base res jobs j hnd hj h0 hd,
      find_map_id_preserving jobs hnd j hj _ (fun _ => rfl),
      rfl, rfl, rfl, rfl, rfl⟩
  · intro h0 hd
    exact ⟨_, run_job_complete_fail_retry now2 base res jobs j hnd hj h0 hd,
      find_map_id_preserving jobs hnd j hj _ (fun _ => rfl),
      rfl, rfl, rfl, rfl, rfl⟩

/-- The processing job used for the C3 counterexample and witness: one
attempt already used up none of its zero allowed retries. -/
def jobC3 : Job :=
  { id := "c3"
    command := "exit 1"
    state := .processing
    attempts := 0
    max_retries := 0
    created_at := 0
    updated_at := 0
    last_error := none
    next_run_at := none
    locked_by := some "w1"
    locked_at := some 0
    priority := 0
    return_code := none
    stdout := none
    stderr := none
    duration_ms := none }

/-- Claim C3 as stated is false on the code: a failing completion with return
code 1 records last_error "Exit code 1" (capital E), not the "exit code 1"
the claim demands. -/
theorem C3_last_error_counterexample :
    (run_job_complete 9 2 ⟨1, "", "boom", 4⟩ "c3" [jobC3]).map
        (fun l => l.map Job.last_error) = some [some "Exit code 1"] ∧
    (some "Exit code 1" : Option String) ≠ some "exit code 1" := by
  constructor
  · rfl
  · decide

theorem C3_completion_semantics_witness :
    ∃ jobs', run_job_complete 9 2 ⟨1, "", "boom", 4⟩ jobC3.id [jobC3] =
        some jobs' ∧
      jobs'.find? (fun k => decide (k.id = jobC3.id)) =
        some (deadUpdate 9 (jobC3.attempts + 1) ⟨1, "", "boom", 4⟩ jobC3) ∧
      (deadUpdate 9 (jobC3.attempts + 1) ⟨1, "", "boom", 4⟩ jobC3).state =
        JState.dead ∧
      (deadUpdate 9 (jobC3.attempts + 1) ⟨1, "", "boom", 4⟩ jobC3).attempts =
        jobC3.attempts + 1 ∧
      (deadUpdate 9 (jobC3.attempts + 1) ⟨1, "", "boom", 4⟩ jobC3).last_error =
        some ("Exit code " ++ toString (1 : Int)) ∧
      (deadUpdate 9 (jobC3.attempts + 1) ⟨1, "", "boom", 4⟩ jobC3).locked_by =
        none ∧
      (deadUpdate 9 (jobC3.attempts + 1) ⟨1, "", "boom", 4⟩ jobC3).locked_at =
        none :=
  (C3_completion_semantics 9 2 ⟨1, "", "boom", 4⟩ [jobC3] jobC3 (by decide)
    (by decide)).2.1 (by decide) (by decide)

/-! ### Claim C4 -/

theorem claimable_failed {j : Job} (h : j.state = JState.failed) :
    claimable j = true := by
  unfold claimable
  rw [h]

theorem failAttempt_dead (now2 base : Int) (res : ExecResult) (j : Job)
    (hd : j.attempts + 1 > j.max_retries) :
    failAttempt now2 base res j = deadUpdate now2 (j.attempts + 1) res j := by
  unfold failAttempt
  rw [if_pos hd]

theorem failAttempt_retry (now2 base : Int) (res : ExecResult) (j : Job)
    (hd : ¬j.attempts + 1 > j.max_retries) :
    failAttempt now2 base res j =
      failedUpdate now2 (j.attempts + 1)
        (now2 + compute_backoff base (j.attempts + 1)) res j := by
  unfold failAttempt
  rw [if_neg hd]

theorem iterFail_within_budget (steps : List (Int × Int × ExecResult))
    (j : Job) (hlen : j.attempts + (steps.length : Int) ≤ j.max_retries) :
    (iterFail steps j).attempts = j.attempts + steps.length ∧
    (iterFail steps j).max_retries = j.max_retries ∧
    (steps ≠ [] → (iterFail steps j).state = JState.failed) := by
  induction steps generalizing j with
  | nil => simp [iterFail]
  | cons s rest ih =>
    obtain ⟨n, b, r⟩ := s
    simp only [iterFail]
    have hnd2 : ¬j.attempts + 1 > j.max_retries := by
      simp only [List.length_cons] at hlen
      push_cast at hlen
      omega
    rw [failAttempt_retry n b r j hnd2]
    obtain ⟨ia, im, is⟩ := ih
      (failedUpdate n (j.attempts + 1)
        (n + compute_backoff b (j.attempts + 1)) r j)
      (by
        show j.attempts + 1 + (rest.length : Int) ≤ j.max_retries
        simp only [List.length_cons] at hlen
        push_cast at hlen
        omega)
    refine ⟨?_, im, fun _ => ?_⟩
    · rw [ia]
      show j.attempts + 1 + (rest.length : Int) = _
      simp only [List.length_cons]
      push_cast
      omega
    · cases rest with
      | nil => rfl
      | cons q qs => exact is (by simp)

theorem iterFail_exhausted (steps : List (Int × Int × ExecResult)) (j : Job)
    (hne : steps ≠ [])
    (hlen : j.attempts + (steps.length : Int) = j.max_retries + 1) :
    (iterFail steps j).state = JState.dead ∧
    (iterFail steps j).attempts = j.attempts + steps.length := by
  induction steps generalizing j with
  | nil => exact absurd rfl hne
  | cons s rest ih =>
    obtain ⟨n, b, r⟩ := s
    simp only [iterFail]
    cases rest with
    | nil =>
      have hd : j.attempts + 1 > j.max_retries := by
        simp only [List.length_cons, List.length_nil] at hlen
        push_cast at hlen
        omega
      rw [failAttempt_dead n b r j hd]
      refine ⟨rfl, ?_⟩
      show j.attempts + 1 = _
      simp
    | cons q qs =>
      have hnd2 : ¬j.attempts + 1 > j.max_retries := by
        simp only [List.length_cons] at hlen
        push_cast at hlen
        omega
      rw [failAttempt_retry n b r j hnd2]
      obtain ⟨hd, ha⟩ := ih
        (failedUpdate n (j.attempts + 1)
          (n + compute_backoff b (j.attempts + 1)) r j)
        (by simp)
        (by
          show j.attempts + 1 + _ = j.max_retries + 1
          simp only [List.length_cons] at hlen ⊢
          push_cast at hlen ⊢
          omega)
      refine ⟨hd, ?_⟩
      rw [ha]
      show j.attempts + 1 + _ = _
      simp only [List.length_cons]
      push_cast
      omega

/-- Claim C4: a job created with max_retries = r and attempts = 0 whose every
attempt fails reaches dead after exactly r + 1 failed attempts: after each of
the first r failing completions it is in state failed (hence re-claimable)
with attempts equal to the number of failures so far, and the (r+1)-th
failing completion — and no earlier one — moves it to dead. -/
theorem C4_dead_after_exactly_r_plus_1 (r : Int) (hr : 0 ≤ r) (j : Job)
    (h0 : j.attempts = 0) (hm : j.max_retries = r)
    (steps : List (Int × Int × ExecResult)) :
    (∀ k : Nat, 1 ≤ k → (k : Int) ≤ r → k ≤ steps.length →
      (iterFail (steps.take k) j).state = JState.failed ∧
      (iterFail (steps.take k) j).attempts = (k : Int) ∧
      claimable (iterFail (steps.take k) j) = true) ∧
    ((steps.length : Int) = r + 1 →
      (iterFail steps j).state = JState.dead ∧
      (iterFail steps j).attempts = r + 1) := by
  constructor
  · intro k h1 h2 h3
    have hlen : (steps.take k).length = k := by
      rw [List.length_take]
      omega
    obtain ⟨ia, im, is⟩ := iterFail_within_budget (steps.take k) j
      (by rw [hlen, h0, hm]; omega)
    have hne : steps.take k ≠ [] := by
      intro hc
      rw [hc] at hlen
      simp at hlen
      omega
    have hst := is hne
    refine ⟨hst, ?_, claimable_failed hst⟩
    rw [ia, h0, hlen]
    omega
  · intro hlen
    have hne : steps ≠ [] := by
      intro hc
      rw [hc] at hlen
      simp at hlen
      omega
    obtain ⟨hd, ha⟩ := iterFail_exhausted steps j hne (by rw [h0, hm]; omega)
    exact ⟨hd, by rw [ha, h0]; omega⟩

/-- The always-failing job of the C4 witness: one retry allowed. -/
def jobC4 : Job :=
  { id := "c4"
    command := "exit 1"
    state := .processing
    attempts := 0
    max_retries := 1
    created_at := 0
    updated_at := 0
    last_error := none
    next_run_at := none
    locked_by := some "w1"
    locked_at := some 0
    priority := 0
    return_code := none
    stdout := none
    stderr := none
    duration_ms := none }

/-- Two failing execution attempts, for the C4 witness. -/
def stepsC4 : List (Int × Int × ExecResult) :=
  [(1, 2, ⟨1, "", "", 3⟩), (4, 2, ⟨1, "", "", 3⟩)]

theorem C4_dead_after_exactly_r_plus_1_witness :
    (∀ k : Nat, 1 ≤ k → (k : Int) ≤ 1 → k ≤ stepsC4.length →
      (iterFail (stepsC4.take k) jobC4).state = JState.failed ∧
      (iterFail (stepsC4.take k) jobC4).attempts = (k : Int) ∧
      claimable (iterFail (stepsC4.take k) jobC4) = true) ∧
    ((stepsC4.length : Int) = 1 + 1 →
      (iterFail stepsC4 jobC4).state = JState.dead ∧
      (iterFail stepsC4 jobC4).attempts = 1 + 1) :=
  C4_dead_after_exactly_r_plus_1 1 (by decide) jobC4 (by decide) (by decide)
    stepsC4

/-! ### Claim C5 -/

/-- Claim C5: the backoff policy computes base ^ max(attempts, 0) in integer
seconds, where attempts is the post-increment failure count; in particular
backoff(2, attempts) equals 2 ^ attempts (for the nonnegative counts that
occur) and is monotonically non-decreasing in attempts. -/
theorem C5_backoff_policy :
    (∀ base attempts : Int,
      compute_backoff base attempts = base ^ (max attempts 0).toNat) ∧
    (∀ attempts : Int, 0 ≤ attempts →
      compute_backoff 2 attempts = 2 ^ attempts.toNat) ∧
    (∀ a b : Int, a ≤ b → compute_backoff 2 a ≤ compute_backoff 2 b) := by
  refine ⟨fun _ _ => rfl, ?_, ?_⟩
  · intro a ha
    unfold compute_backoff
    congr 1
    omega
  · intro a b hab
    unfold compute_backoff
    apply pow_le_pow_right₀ (by norm_num)
    omega

theorem C5_backoff_policy_witness :
    compute_backoff 2 3 = 2 ^ (3 : Int).toNat ∧
    compute_backoff 2 1 ≤ compute_backoff 2 4 :=
  ⟨C5_backoff_policy.2.1 3 (by norm_num),
   C5_backoff_policy.2.2 1 4 (by norm_num)⟩

/-! ### Claim C6 -/

/-- Claim C6 is refuted by the code: on the failure path `run_job` evaluates
`int(get_config(conn, "backoff_base"))` (line 216) outside any handler, so a
non-numeric `backoff_base` raises ValueError there (modelled `none`) before
`compute_backoff` is ever reached — even though `compute_backoff` itself
(lines 203-209) would fall back to base 2 on a non-numeric base, and a
numeric config parses fine. -/
theorem C6_backoff_load_raises :
    run_job_load_backoff_base "not-a-number" = none ∧
    compute_backoff_str "not-a-number" 3 = 8 ∧
    run_job_load_backoff_base "2" = some 2 := by
  refine ⟨?_, ?_, ?_⟩ <;> decide

/-! ### Claim C7 -/

/-- Claim C7: requeue succeeds exactly when the job's current state is dead,
and then resets it to pending with attempts 0 and next_run_at / last_error
cleared; for a job in any other state or a nonexistent id it fails with
NotFound and leaves the jobs table unchanged. -/
theorem C7_requeue_semantics (now : Int) (job_id : String) (jobs : List Job)
    (hnd : (jobs.map Job.id).Nodup) :
    ((dlq_retry now job_id jobs).1 = true ↔
      ∃ j ∈ jobs, j.id = job_id ∧ j.state = JState.dead) ∧
    ((dlq_retry now job_id jobs).1 = false →
      (dlq_retry now job_id jobs).2 = jobs) ∧
    (∀ j ∈ jobs, j.id = job_id → j.state = JState.dead →
      (dlq_retry now job_id jobs).2.find? (fun k => decide (k.id = job_id)) =
        some (dlqReset now j) ∧
      (dlqReset now j).state = JState.pending ∧
      (dlqReset now j).attempts = 0 ∧
      (dlqReset now j).next_run_at = none ∧
      (dlqReset now j).last_error = none) := by
  have hany : (jobs.any (fun j =>
      decide (j.id = job_id) && decide (j.state = JState.dead))) = true ↔
      ∃ j ∈ jobs, j.id = job_id ∧ j.state = JState.dead := by
    rw [List.any_eq_true]
    constructor
    · rintro ⟨j, hj, hp⟩
      rw [Bool.and_eq_true, decide_eq_true_eq, decide_eq_true_eq] at hp
      exact ⟨j, hj, hp⟩
    · rintro ⟨j, hj, h1, h2⟩
      exact ⟨j, hj, by rw [Bool.and_eq_true, decide_eq_true_eq,
        decide_eq_true_eq]; exact ⟨h1, h2⟩⟩
  refine ⟨?_, ?_, ?_⟩
  · rw [← hany]
    unfold dlq_retry
    by_cases h : (jobs.any (fun j =>
        decide (j.id = job_id) && decide (j.state = JState.dead))) = true
    · rw [if_pos h]
      simp [h]
    · rw [if_neg h]
      simp only [Bool.not_eq_true] at h
      simp [h]
  · intro h
    unfold dlq_retry at h ⊢
    by_cases ha : (jobs.any (fun j =>
        decide (j.id = job_id) && decide (j.state = JState.dead))) = true
    · rw [if_pos ha] at h
      simp at h
    · rw [if_neg ha]
  · intro j hj hid hdead
    have ha : (jobs.any (fun j =>
        decide (j.id = job_id) && decide (j.state = JState.dead))) = true :=
      hany.mpr ⟨j, hj, hid, hdead⟩
    have hsnd : (dlq_retry now job_id jobs).2 =
        jobs.map (fun k => if decide (k.id = job_id) then dlqReset now k
          else k) := by
      unfold dlq_retry
      rw [if_pos ha]
    subst hid
    rw [hsnd]
    exact ⟨find_map_id_preserving jobs hnd j hj _ (fun _ => rfl),
      rfl, rfl, rfl, rfl⟩

/-- The dead job of the C7 witness. -/
def jobC7 : Job :=
  { id := "c7"
    command := "exit 1"
    state := .dead
    attempts := 4
    max_retries := 3
    created_at := 0
    updated_at := 8
    last_error := some "Exit code 1"
    next_run_at := none
    locked_by := none
    locked_at := none
    priority := 0
    return_code := some 1
    stdout := some ""
    stderr := some ""
    duration_ms := some 2
    }

theorem C7_requeue_semantics_witness :
    ((dlq_retry 10 "c7" [jobC7]).1 = true ↔
      ∃ j ∈ [jobC7], j.id = "c7" ∧ j.state = JState.dead) ∧
    ((dlq_retry 10 "c7" [jobC7]).1 = false →
      (dlq_retry 10 "c7" [jobC7]).2 = [jobC7]) ∧
    (∀ j ∈ [jobC7], j.id = "c7" → j.state = JState.dead →
      (dlq_retry 10 "c7" [jobC7]).2.find? (fun k => decide (k.id = "c7")) =
        some (dlqReset 10 j) ∧
      (dlqReset 10 j).state = JState.pending ∧
      (dlqReset 10 j).attempts = 0 ∧
      (dlqReset 10 j).next_run_at = none ∧
      (dlqReset 10 j).last_error = none) :=
  C7_requeue_semantics 10 "c7" [jobC7] (by decide)

/-! ### Claim C8 -/

/-- Claim C8 is refuted by the code: the `except` clause of `run_job`
(lines 225-228) names only `subprocess.TimeoutExpired`, so an invocation
fault it does not name — here `UnicodeDecodeError`, raised by the strict
`text=True` decoding when the job's command emits non-UTF-8 bytes — escapes
execute to its caller instead of being mapped to a failure result. The
timeout fault alone is mapped as the claim describes: return_code -1 (so the
completion logic takes its failure branch) with the timeout marker appended
to the captured stderr. -/
theorem C8_uncaught_fault_escapes :
    executeCommand 7 5 (.uncaughtFault "UnicodeDecodeError") =
      Except.error "UnicodeDecodeError" ∧
    executeCommand 7 5 (.timeoutExpired none (some "x")) =
      Except.ok ⟨-1, "", "xTIMEOUT after 7s", 5⟩ :=
  ⟨rfl, rfl⟩

/-! ### Claim C9 -/

/-- Claim C9 (amended): existing jobs' state and locked_by fields are changed
only by the atomic claim, attempt completion and explicit manual requeue
operations — every other exposed operation leaves every existing row in the
table untouched — and job submission only inserts a new row whose locked_by
is unset; however the new row's initial state is taken from the
caller-supplied JSON when present, defaulting to pending only when the JSON
omits it. (The claim as stated — that submission neither writes nor chooses
a job's state — is refuted by the counterexample.) -/
theorem C9_lifecycle_only_mutators (op : StoreOp)
    (h : isLifecycleOp op = false) (jobs : List Job) :
    (∀ j ∈ jobs, j ∈ applyOp op jobs) ∧
    (∀ j ∈ applyOp op jobs, j ∈ jobs ∨
      ∃ now genId priority jj, op = .enqueue now genId priority jj ∧
        j = enqueue_job now genId priority jj ∧
        j.locked_by = none ∧ j.state = jj.state.getD JState.pending) := by
  cases op with
  | enqueue now genId priority jj =>
    constructor
    · intro j hj
      exact List.mem_append_left _ hj
    · intro j hj
      rcases List.mem_append.mp hj with hj' | hj'
      · exact Or.inl hj'
      · right
        have hje : j = enqueue_job now genId priority jj := by
          simpa using hj'
        exact ⟨now, genId, priority, jj, rfl, hje, by rw [hje]; rfl,
          by rw [hje]; rfl⟩
  | claim now w => simp [isLifecycleOp] at h
  | complete now2 base res job_id => simp [isLifecycleOp] at h
  | requeue now job_id => simp [isLifecycleOp] at h
  | listJobs s l => exact ⟨fun j hj => hj, fun j hj => Or.inl hj⟩
  | statusQuery => exact ⟨fun j hj => hj, fun j hj => Or.inl hj⟩
  | dlqList l => exact ⟨fun j hj => hj, fun j hj => Or.inl hj⟩
  | configSet k v => exact ⟨fun j hj => hj, fun j hj => Or.inl hj⟩

/-- Claim C9 as stated is false on the code: job submission writes the state
column, and the caller-supplied JSON chooses its value — enqueueing a job
whose JSON carries state "completed" inserts it as completed, while the same
JSON without a state field yields pending. -/
theorem C9_submission_chooses_state_counterexample :
    (enqueue_job 0 "gen" 0
        ⟨some "x", "echo hi", some JState.completed, none, none, none,
          none⟩).state = JState.completed ∧
    (enqueue_job 0 "gen" 0
        ⟨some "x", "echo hi", none, none, none, none, none⟩).state =
      JState.pending ∧
    JState.completed ≠ JState.pending :=
  ⟨rfl, rfl, by decide⟩

/-- The pre-existing job of the table in the C9 witness. -/
def jobC9 : Job :=
  { id := "c9"
    command := "echo hi"
    state := .pending
    attempts := 0
    max_retries := 3
    created_at := 0
    updated_at := 0
    last_error := none
    next_run_at := none
    locked_by := none
    locked_at := none
    priority := 0
    return_code := none
    stdout := none
    stderr := none
    duration_ms := none }

theorem C9_lifecycle_only_mutators_witness :
    (∀ j ∈ [jobC9],
      j ∈ applyOp (.configSet "backoff_base" "3") [jobC9]) ∧
    (∀ j ∈ applyOp (.configSet "backoff_base" "3") [jobC9], j ∈ [jobC9] ∨
      ∃ now genId priority jj,
        (StoreOp.configSet "backoff_base" "3") =
          .enqueue now genId priority jj ∧
        j = enqueue_job now genId priority jj ∧
        j.locked_by = none ∧ j.state = jj.state.getD JState.pending) :=
  C9_lifecycle_only_mutators (.configSet "backoff_base" "3") (by decide)
    [jobC9]

/-! ### Claim C10 -/

/-- Claim C10: spawn_workers resets the global shutdown flag to "0" before
spawning any worker — the control-table UPDATE is the head of its effect
trace and everything after it is a worker spawn — so a previously requested
shutdown is cancelled whenever new workers are started: running the trace
leaves the flag at "0" whatever its prior value. -/
theorem C10_spawn_resets_shutdown (count : Nat) (flag : String) :
    (spawn_workers count).head? = some SpawnAction.resetShutdown ∧
    (∀ a ∈ (spawn_workers count).tail, a ≠ SpawnAction.resetShutdown ∧
      ∃ i, i < count ∧ a = SpawnAction.startWorker i) ∧
    runSpawnActions flag (spawn_workers count) = "0" := by
  refine ⟨rfl, ?_, ?_⟩
  · intro a ha
    simp only [spawn_workers, List.tail_cons] at ha
    obtain ⟨i, hi, rfl⟩ := List.mem_map.mp ha
    rw [List.mem_range] at hi
    exact ⟨by simp, i, hi, rfl⟩
  · show runSpawnActions flag
      (SpawnAction.resetShutdown ::
        (List.range count).map SpawnAction.startWorker) = "0"
    have hall : ∀ l : List Nat,
        runSpawnActions "0" (l.map SpawnAction.startWorker) = "0" := by
      intro l
      induction l with
      | nil => rfl
      | cons x xs ih => exact ih
    exact hall (List.range count)

theorem C10_spawn_resets_shutdown_witness :
    (spawn_workers 2).head? = some SpawnAction.resetShutdown ∧
    (∀ a ∈ (spawn_workers 2).tail, a ≠ SpawnAction.resetShutdown ∧
      ∃ i, i < 2 ∧ a = SpawnAction.startWorker i) ∧
    runSpawnActions "1" (spawn_workers 2) = "0" :=
  C10_spawn_resets_shutdown 2 "1"

end Queuectl
